import Mathlib

set_option maxHeartbeats 1000000

/-!
Shallow embedding of `src/mapdiff.py` (MapDiff).

Strings are modelled as `List Char`; the Python `str` operations the source
uses (`split`, `strip`, `join`, `replace`) are given as structurally
recursive functions with Python's semantics on the characters the map
format uses.  A Python `dict[str, str]` is an association list with unique
keys in insertion order.  Iteration over a Python `set` is modelled by an
explicit enumeration of the set, constrained by `Analyzer.validOrder`.
-/

/-- The character list of a string literal. -/
def chars (s : String) : List Char := s.data

/-- Characters removed by Python `str.strip()` (ASCII whitespace; Python also
strips some Unicode whitespace codepoints, which the map format never
contains). -/
def isSpace (c : Char) : Bool :=
  c = ' ' || c = '\t' || c = '\n' || c = '\r' || c = '\x0b' || c = '\x0c'

/-- Python `s.split(sep)` for a one-character separator: splits at every
occurrence, keeping empty fields; never returns the empty list. -/
def pySplit (sep : Char) : List Char → List (List Char)
  | [] => [[]]
  | c :: cs =>
    if c = sep then [] :: pySplit sep cs
    else
      match pySplit sep cs with
      | [] => [[c]]
      | g :: gs => (c :: g) :: gs

/-- Python `sep.join(parts)` for a one-character separator. -/
def pyJoin (sep : Char) : List (List Char) → List Char
  | [] => []
  | [g] => g
  | g :: g' :: gs => g ++ sep :: pyJoin sep (g' :: gs)

/-- Python `s.strip()`. -/
def pyStrip (s : List Char) : List Char :=
  ((s.dropWhile isSpace).reverse.dropWhile isSpace).reverse

/-- Auxiliary recursion for `removeAll`, with fuel for termination; fuel
`s.length` suffices because the pattern the source passes (a key ending in
a bar) is never empty. -/
def removeAllAux (pat : List Char) : Nat → List Char → List Char
  | 0, s => s
  | _, [] => []
  | fuel + 1, c :: cs =>
    if pat.isPrefixOf (c :: cs) then
      removeAllAux pat fuel (List.drop pat.length (c :: cs))
    else c :: removeAllAux pat fuel cs

/-- Python `s.replace(pat, "")`: removes every non-overlapping occurrence of
`pat`, scanning left to right. -/
def removeAll (pat s : List Char) : List Char := removeAllAux pat s.length s

/-- A Python `dict[str, str]`: an association list with unique keys in
insertion order. -/
abbrev SysMap := List (List Char × List Char)

/-- Lookup in a `dict`. -/
def lookupKey (k : List Char) : SysMap → Option (List Char)
  | [] => none
  | (k', v) :: m => if k' = k then some v else lookupKey k m

/-- Python `dict` assignment `m[k] = v`: overwrites in place when the key
exists, appends otherwise. -/
def dictInsert (k v : List Char) : SysMap → SysMap
  | [] => [(k, v)]
  | (k', v') :: m => if k' = k then (k, v) :: m else (k', v') :: dictInsert k v m

/-- The keys of the association list are pairwise distinct (every Python
`dict` satisfies this). -/
def keysNodup : SysMap → Prop
  | [] => True
  | (k, _) :: m => lookupKey k m = none ∧ keysNodup m

def decKeysNodup : (m : SysMap) → Decidable (keysNodup m)
  | [] => .isTrue trivial
  | (_, _) :: m => @instDecidableAnd _ _ inferInstance (decKeysNodup m)

instance (m : SysMap) : Decidable (keysNodup m) := decKeysNodup m

namespace Analyzer

/-- One iteration of the loop body of `Analyzer._build_map` (mapdiff.py lines
80-82): the `(key, value)` pair one line contributes to the hash map. -/
def build_line (line : List Char) : List Char × List Char :=
  let current_file_data := pySplit '|' ((pySplit '>' line).getLastD [])
  let current_file_name := pyStrip (current_file_data.headD []) ++ ['|']
  (current_file_name,
    removeAll current_file_name (pyStrip (pyJoin '|' current_file_data)))

/-- `Analyzer._build_map` (mapdiff.py lines 77-83) over the file's lines (each
line keeps its trailing newline, as Python file iteration yields it). -/
def build_map (lines : List (List Char)) : SysMap :=
  lines.foldl (fun m line => dictInsert (build_line line).1 (build_line line).2 m) []

/-- Membership of a `(key, value)` pair in `set(m.items())`. -/
def pairMem (p : List Char × List Char) : SysMap → Bool
  | [] => false
  | q :: m => if q = p then true else pairMem p m

/-- Membership in `set(original.items()) ^ set(current.items())`
(mapdiff.py lines 114-116). -/
def inSymDiff (o c : SysMap) (p : List Char × List Char) : Bool :=
  pairMem p o != pairMem p c

/-- `order` enumerates the set `set(o.items()) ^ set(c.items())`, each element
exactly once: iterating a Python set yields such a sequence, in an order the
language does not fix. -/
def validOrder (o c : SysMap) (order : SysMap) : Prop :=
  order.Nodup ∧ (∀ p ∈ order, inSymDiff o c p = true) ∧
    (∀ p ∈ o, inSymDiff o c p = true → p ∈ order) ∧
    (∀ p ∈ c, inSymDiff o c p = true → p ∈ order)

instance (o c order : SysMap) : Decidable (validOrder o c order) := by
  unfold validOrder; infer_instance

/-- Loop body of `Analyzer.compare` (mapdiff.py lines 117-119): record the
tuple's value unless its key is already present (the first tuple of the
iteration wins). -/
def insert_if_new (m : SysMap) (p : List Char × List Char) : SysMap :=
  if lookupKey p.1 m = none then m ++ [p] else m

/-- `Analyzer.compare` (mapdiff.py lines 95-120).  `self_original_map` and
`self_current_map` are the maps built at construction; `order` is the
iteration order of the symmetric-difference set (constrained by
`validOrder self_original_map self_current_map order` in the theorems); the
three parameters of the Python signature are unused by the source body. -/
def compare (self_original_map self_current_map : SysMap)
    (original_map_file current_map_file : List Char)
    (print_to_console : Bool) (order : SysMap) : SysMap :=
  order.foldl insert_if_new []

end Analyzer

/-- Outcome of `Analyzer.__init__` (mapdiff.py lines 46-65): either the
process exits via `sys.exit(2)` (the missing-file error path) or both maps
are built. -/
inductive InitResult where
  | exited (code : Nat)
  | ok (original_map current_map : SysMap)
deriving DecidableEq

/-- `Analyzer.__init__` (mapdiff.py lines 56-63) over a file system `fs`
mapping a path to its list of lines when the file exists. -/
def Analyzer.init (fs : List Char → Option (List (List Char)))
    (original_map_file current_map_file : List Char) : InitResult :=
  match fs original_map_file, fs current_map_file with
  | none, _ => .exited 2
  | some _, none => .exited 2
  | some ls1, some ls2 => .ok (Analyzer.build_map ls1) (Analyzer.build_map ls2)

/-! Supporting lemmas about the `dict` model. -/

theorem lookupKey_nil (k : List Char) : lookupKey k [] = none := rfl

theorem lookupKey_cons (k k' v : List Char) (m : SysMap) :
    lookupKey k ((k', v) :: m) = if k' = k then some v else lookupKey k m := rfl

theorem lookupKey_append_some {k v : List Char} {m : SysMap} (n : SysMap)
    (h : lookupKey k m = some v) : lookupKey k (m ++ n) = some v := by
  induction m with
  | nil => simp [lookupKey] at h
  | cons p m ih =>
    obtain ⟨k', v'⟩ := p
    rw [List.cons_append, lookupKey_cons] at *
    by_cases hk : k' = k
    · rwa [if_pos hk] at h ⊢
    · rw [if_neg hk] at h ⊢
      exact ih h

theorem lookupKey_append_none {k : List Char} {m : SysMap} (n : SysMap)
    (h : lookupKey k m = none) : lookupKey k (m ++ n) = lookupKey k n := by
  induction m with
  | nil => rfl
  | cons p m ih =>
    obtain ⟨k', v'⟩ := p
    rw [lookupKey_cons] at h
    rw [List.cons_append, lookupKey_cons]
    by_cases hk : k' = k
    · rw [if_pos hk] at h; cases h
    · rw [if_neg hk] at h ⊢
      exact ih h

theorem lookupKey_eq_none_iff {k : List Char} {m : SysMap} :
    lookupKey k m = none ↔ ∀ v, (k, v) ∉ m := by
  induction m with
  | nil => simp [lookupKey]
  | cons p m ih =>
    obtain ⟨k', v'⟩ := p
    rw [lookupKey_cons]
    by_cases hk : k' = k
    · subst hk
      simp only [if_pos rfl]
      constructor
      · intro h; cases h
      · intro h; exact absurd (List.mem_cons_self _ _) (h v')
    · rw [if_neg hk, ih]
      constructor
      · intro h v hv
        rcases List.mem_cons.1 hv with h1 | h1
        · cases h1; exact hk rfl
        · exact h v h1
      · intro h v hv
        exact h v (List.mem_cons_of_mem _ hv)

theorem mem_of_lookupKey_some {k v : List Char} {m : SysMap}
    (h : lookupKey k m = some v) : (k, v) ∈ m := by
  induction m with
  | nil => cases h
  | cons p m ih =>
    obtain ⟨k', v'⟩ := p
    rw [lookupKey_cons] at h
    by_cases hk : k' = k
    · rw [if_pos hk] at h
      cases h; subst hk; exact List.mem_cons_self _ _
    · rw [if_neg hk] at h
      exact List.mem_cons_of_mem _ (ih h)

theorem lookupKey_isSome_iff {k : List Char} {m : SysMap} :
    (lookupKey k m).isSome = true ↔ ∃ v, (k, v) ∈ m := by
  cases h : lookupKey k m with
  | none =>
    rw [lookupKey_eq_none_iff] at h
    simp only [Option.isSome_none, Bool.false_eq_true, false_iff, not_exists]
    exact h
  | some v =>
    simp only [Option.isSome_some, true_iff]
    exact ⟨v, mem_of_lookupKey_some h⟩

theorem lookupKey_of_mem_nodup {k v : List Char} {m : SysMap}
    (hm : keysNodup m) (h : (k, v) ∈ m) : lookupKey k m = some v := by
  induction m with
  | nil => cases h
  | cons p m ih =>
    obtain ⟨k', v'⟩ := p
    rw [lookupKey_cons]
    rcases List.mem_cons.1 h with h1 | h1
    · cases h1; rw [if_pos rfl]
    · by_cases hk : k' = k
      · subst hk
        exfalso
        have : lookupKey k' m = none := hm.1
        rw [lookupKey_eq_none_iff] at this
        exact this v h1
      · rw [if_neg hk]
        exact ih hm.2 h1

theorem lookupKey_unique_mem {k v : List Char} {L : SysMap}
    (hmem : (k, v) ∈ L) (huniq : ∀ w, (k, w) ∈ L → w = v) :
    lookupKey k L = some v := by
  induction L with
  | nil => cases hmem
  | cons p L ih =>
    obtain ⟨k', v'⟩ := p
    rw [lookupKey_cons]
    by_cases hk : k' = k
    · subst hk
      rw [if_pos rfl, huniq v' (List.mem_cons_self _ _)]
    · rw [if_neg hk]
      rcases List.mem_cons.1 hmem with h1 | h1
      · cases h1; exact absurd rfl hk
      · exact ih h1 (fun w hw => huniq w (List.mem_cons_of_mem _ hw))

theorem pairMem_iff {p : List Char × List Char} {m : SysMap} :
    Analyzer.pairMem p m = true ↔ p ∈ m := by
  induction m with
  | nil => simp [Analyzer.pairMem]
  | cons q m ih =>
    unfold Analyzer.pairMem
    by_cases hq : q = p
    · simp [hq]
    · rw [if_neg hq, ih]
      simp [List.mem_cons, hq]
      intro h; exact absurd h.symm hq

theorem pairMem_false_iff {p : List Char × List Char} {m : SysMap} :
    Analyzer.pairMem p m = false ↔ p ∉ m := by
  rw [← Bool.not_eq_true, not_iff_not]
  exact pairMem_iff

/-! Supporting lemmas about the symmetric-difference iteration and the
`compare` fold. -/

theorem lookupKey_foldl_insert (L : SysMap) :
    ∀ (acc : SysMap) (k : List Char),
      lookupKey k (L.foldl Analyzer.insert_if_new acc) =
        if (lookupKey k acc).isSome then lookupKey k acc else lookupKey k L := by
  induction L with
  | nil =>
    intro acc k
    cases h : lookupKey k acc <;> simp [h, lookupKey]
  | cons p L ih =>
    intro acc k
    obtain ⟨pk, pv⟩ := p
    rw [List.foldl_cons, ih]
    unfold Analyzer.insert_if_new
    cases hacc : lookupKey k acc with
    | some v =>
      by_cases hp : lookupKey pk acc = none
      · simp only
        rw [if_pos hp, lookupKey_append_some _ hacc]
        simp
      · simp only
        rw [if_neg hp, hacc]
        simp
    | none =>
      by_cases hp : lookupKey pk acc = none
      · simp only
        rw [if_pos hp, lookupKey_append_none _ hacc, lookupKey_cons, lookupKey_cons]
        by_cases hk : pk = k
        · rw [if_pos hk, if_pos hk]
          simp
        · rw [if_neg hk, if_neg hk, lookupKey_nil]
      · simp only
        rw [if_neg hp, hacc, lookupKey_cons]
        have hk : pk ≠ k := fun h => hp (h ▸ hacc)
        rw [if_neg hk]

/-- The record the comparison loop stores for a key is the value of the first
tuple with that key in the iteration order. -/
theorem Analyzer.compare_lookup (o c : SysMap) (f1 f2 : List Char) (b : Bool)
    (L : SysMap) (k : List Char) :
    lookupKey k (Analyzer.compare o c f1 f2 b L) = lookupKey k L := by
  unfold Analyzer.compare
  rw [lookupKey_foldl_insert]
  simp [lookupKey]

theorem inSymDiff_iff {o c : SysMap} {p : List Char × List Char} :
    Analyzer.inSymDiff o c p = true ↔ ((p ∈ o ∧ p ∉ c) ∨ (p ∉ o ∧ p ∈ c)) := by
  unfold Analyzer.inSymDiff
  cases ho : Analyzer.pairMem p o <;> cases hc : Analyzer.pairMem p c <;>
    simp_all [pairMem_iff, pairMem_false_iff]

theorem inSymDiff_comm (o c : SysMap) (p : List Char × List Char) :
    Analyzer.inSymDiff o c p = Analyzer.inSymDiff c o p := by
  unfold Analyzer.inSymDiff
  cases Analyzer.pairMem p o <;> cases Analyzer.pairMem p c <;> rfl

theorem Analyzer.validOrder_mem {o c L : SysMap} (h : Analyzer.validOrder o c L)
    (p : List Char × List Char) : p ∈ L ↔ Analyzer.inSymDiff o c p = true := by
  constructor
  · exact h.2.1 p
  · intro hsym
    rcases inSymDiff_iff.1 hsym with ⟨h1, _⟩ | ⟨_, h1⟩
    · exact h.2.2.1 p h1 hsym
    · exact h.2.2.2 p h1 hsym

theorem Analyzer.validOrder_symm {o c L : SysMap}
    (h : Analyzer.validOrder o c L) : Analyzer.validOrder c o L := by
  refine ⟨h.1, ?_, ?_, ?_⟩
  · intro p hp; rw [inSymDiff_comm]; exact h.2.1 p hp
  · intro p hp hs; rw [inSymDiff_comm] at hs; exact h.2.2.2 p hp hs
  · intro p hp hs; rw [inSymDiff_comm] at hs; exact h.2.2.1 p hp hs

/-- Core fact behind the Added/Removed cases: a key present in exactly one of
the two maps is recorded with that map's value, in every iteration order. -/
theorem compare_only_in_one_lookup {o c L : SysMap} {k v : List Char}
    (ho : keysNodup o) (hc : keysNodup c) (hL : Analyzer.validOrder o c L)
    (h : (lookupKey k o = none ∧ lookupKey k c = some v) ∨
      (lookupKey k o = some v ∧ lookupKey k c = none)) :
    lookupKey k L = some v := by
  rcases h with ⟨hno, hsome⟩ | ⟨hsome, hno⟩
  · have hmemL : (k, v) ∈ L := by
      rw [Analyzer.validOrder_mem hL, inSymDiff_iff]
      exact Or.inr ⟨(lookupKey_eq_none_iff.1 hno) v, mem_of_lookupKey_some hsome⟩
    refine lookupKey_unique_mem hmemL ?_
    intro w hw
    rcases inSymDiff_iff.1 ((Analyzer.validOrder_mem hL _).1 hw) with ⟨h1, _⟩ | ⟨_, h1⟩
    · exact absurd h1 ((lookupKey_eq_none_iff.1 hno) w)
    · have := lookupKey_of_mem_nodup hc h1
      rw [hsome] at this
      exact (Option.some_injective _ this).symm
  · have hmemL : (k, v) ∈ L := by
      rw [Analyzer.validOrder_mem hL, inSymDiff_iff]
      exact Or.inl ⟨mem_of_lookupKey_some hsome, (lookupKey_eq_none_iff.1 hno) v⟩
    refine lookupKey_unique_mem hmemL ?_
    intro w hw
    rcases inSymDiff_iff.1 ((Analyzer.validOrder_mem hL _).1 hw) with ⟨h1, _⟩ | ⟨_, h1⟩
    · have := lookupKey_of_mem_nodup ho h1
      rw [hsome] at this
      exact (Option.some_injective _ this).symm
    · exact absurd h1 ((lookupKey_eq_none_iff.1 hno) w)

/-! Supporting lemmas about `dictInsert` and `build_map`. -/

theorem lookupKey_dictInsert_self (k v : List Char) (m : SysMap) :
    lookupKey k (dictInsert k v m) = some v := by
  induction m with
  | nil => simp [dictInsert, lookupKey]
  | cons p m ih =>
    obtain ⟨k', v'⟩ := p
    unfold dictInsert
    by_cases hk : k' = k
    · rw [if_pos hk, lookupKey_cons, if_pos rfl]
    · rw [if_neg hk, lookupKey_cons, if_neg hk]
      exact ih

theorem lookupKey_dictInsert_ne {k k' : List Char} (v : List Char) (m : SysMap)
    (h : k' ≠ k) : lookupKey k' (dictInsert k v m) = lookupKey k' m := by
  induction m with
  | nil =>
    show lookupKey k' [(k, v)] = lookupKey k' []
    rw [lookupKey_cons, lookupKey_nil, if_neg fun hh => h hh.symm]
  | cons p m ih =>
    obtain ⟨pk, pv⟩ := p
    show lookupKey k' (if pk = k then (k, v) :: m else (pk, pv) :: dictInsert k v m) =
      lookupKey k' ((pk, pv) :: m)
    by_cases hk : pk = k
    · rw [if_pos hk, lookupKey_cons, lookupKey_cons,
        if_neg fun hh => h hh.symm, if_neg fun hh => h (hh.symm.trans hk)]
    · rw [if_neg hk, lookupKey_cons, lookupKey_cons]
      by_cases hpk : pk = k'
      · rw [if_pos hpk, if_pos hpk]
      · rw [if_neg hpk, if_neg hpk]
        exact ih

theorem keysNodup_dictInsert {m : SysMap} (k v : List Char)
    (hm : keysNodup m) : keysNodup (dictInsert k v m) := by
  induction m with
  | nil => exact ⟨rfl, trivial⟩
  | cons p m ih =>
    obtain ⟨pk, pv⟩ := p
    unfold dictInsert
    by_cases hk : pk = k
    · subst hk
      rw [if_pos rfl]
      exact ⟨hm.1, hm.2⟩
    · rw [if_neg hk]
      refine ⟨?_, ih hm.2⟩
      rw [lookupKey_dictInsert_ne _ _ hk]
      exact hm.1

theorem keysNodup_foldl (ls : List (List Char)) :
    ∀ acc : SysMap, keysNodup acc →
      keysNodup (ls.foldl
        (fun m line => dictInsert (Analyzer.build_line line).1 (Analyzer.build_line line).2 m) acc) := by
  induction ls with
  | nil => intro acc h; exact h
  | cons l ls ih =>
    intro acc h
    rw [List.foldl_cons]
    exact ih _ (keysNodup_dictInsert _ _ h)

/-- Every map the parser builds has pairwise distinct keys. -/
theorem keysNodup_build_map (ls : List (List Char)) :
    keysNodup (Analyzer.build_map ls) :=
  keysNodup_foldl ls [] trivial

theorem isSome_lookupKey_dictInsert {k : List Char} {m : SysMap}
    (k' v : List Char) (h : (lookupKey k m).isSome = true) :
    (lookupKey k (dictInsert k' v m)).isSome = true := by
  by_cases hk : k' = k
  · subst hk; rw [lookupKey_dictInsert_self]; rfl
  · rw [lookupKey_dictInsert_ne _ _ (fun hh => hk hh.symm)]
    exact h

theorem isSome_lookupKey_foldl (ls : List (List Char)) :
    ∀ (acc : SysMap) (k : List Char), (lookupKey k acc).isSome = true →
      (lookupKey k (ls.foldl
        (fun m line => dictInsert (Analyzer.build_line line).1 (Analyzer.build_line line).2 m) acc)).isSome = true := by
  induction ls with
  | nil => intro acc k h; exact h
  | cons l ls ih =>
    intro acc k h
    rw [List.foldl_cons]
    exact ih _ _ (isSome_lookupKey_dictInsert _ _ h)

/-- Every line of the input contributes its key to the resulting map. -/
theorem build_map_key_present {ls : List (List Char)} {l : List Char}
    (h : l ∈ ls) :
    (lookupKey (Analyzer.build_line l).1 (Analyzer.build_map ls)).isSome = true := by
  unfold Analyzer.build_map
  suffices hgen : ∀ acc : SysMap,
      (lookupKey (Analyzer.build_line l).1 (ls.foldl
        (fun m line => dictInsert (Analyzer.build_line line).1 (Analyzer.build_line line).2 m) acc)).isSome = true by
    exact hgen []
  induction ls with
  | nil => cases h
  | cons l' ls ih =>
    intro acc
    rw [List.foldl_cons]
    rcases List.mem_cons.1 h with h1 | h1
    · subst h1
      exact isSome_lookupKey_foldl ls _ _
        (by rw [lookupKey_dictInsert_self]; rfl)
    · exact ih h1 _

/-! Supporting lemmas about the Python string primitives. -/

theorem pySplit_ne_nil (sep : Char) (s : List Char) : pySplit sep s ≠ [] := by
  cases s with
  | nil => simp [pySplit]
  | cons c cs =>
    unfold pySplit
    by_cases hc : c = sep
    · rw [if_pos hc]; simp
    · rw [if_neg hc]
      cases pySplit sep cs <;> simp

/-- Splitting and rejoining with the same separator is the identity: the value
the parser stores is the whole record body with the key text removed. -/
theorem pyJoin_pySplit (sep : Char) : ∀ s : List Char, pyJoin sep (pySplit sep s) = s
  | [] => rfl
  | c :: cs => by
    have ih := pyJoin_pySplit sep cs
    obtain ⟨g, gs, hr⟩ := List.exists_cons_of_ne_nil (pySplit_ne_nil sep cs)
    unfold pySplit
    by_cases hc : c = sep
    · rw [if_pos hc, hr]
      rw [hr] at ih
      subst hc
      simpa [pyJoin] using ih
    · rw [if_neg hc, hr]
      rw [hr] at ih
      cases gs with
      | nil =>
        simp only [pyJoin] at ih ⊢
        rw [ih]
      | cons g' gs' =>
        simp only [pyJoin, List.cons_append] at ih ⊢
        rw [ih]

theorem pySplit_of_not_mem {sep : Char} : ∀ {s : List Char}, sep ∉ s → pySplit sep s = [s]
  | [], _ => rfl
  | c :: cs, h => by
    have hc : ¬c = sep := fun hh => h (hh ▸ List.mem_cons_self _ _)
    have hcs : sep ∉ cs := fun hh => h (List.mem_cons_of_mem _ hh)
    unfold pySplit
    rw [if_neg hc, pySplit_of_not_mem hcs]

theorem pyStrip_all_space {s : List Char} (h : ∀ c ∈ s, isSpace c = true) :
    pyStrip s = [] := by
  unfold pyStrip
  rw [List.dropWhile_eq_nil_iff.2 (fun c hc => h c hc)]
  simp

theorem removeAll_nil (pat : List Char) : removeAll pat [] = [] := rfl

/-- The value that step 4 of spec section 4.1 describes for a line: the fields
after the key field rejoined with a bar, trimmed, with the key text stripped
from the front only.  Written from the spec's words, to be compared with the
value `Analyzer.build_line` computes from the source. -/
def specLineValue (line : List Char) : List Char :=
  let fields := pySplit '|' ((pySplit '>' line).getLastD [])
  let key := pyStrip (fields.headD []) ++ ['|']
  let v := pyStrip (pyJoin '|' fields.tail)
  if key.isPrefixOf v then v.drop key.length else v

/-- The swap clause of the spec's direction property: in `compare(A, B)` a
changed key's record carries original value `A[k]` and current value `B[k]`,
and in `compare(B, A)` the two values swap roles; projected onto the single
value the source code stores per key, the two directions must record
different values whenever `A[k] != B[k]`. -/
def changedValuesSwap (A B : SysMap) : Prop :=
  ∀ L1 L2 : SysMap, Analyzer.validOrder A B L1 → Analyzer.validOrder B A L2 →
    ∀ k v w : List Char, lookupKey k A = some v → lookupKey k B = some w → v ≠ w →
      lookupKey k (Analyzer.compare A B [] [] false L1) ≠
        lookupKey k (Analyzer.compare B A [] [] false L2)

/-! Claim theorems. -/

/-- Claim C6 (counterexample): on the line `t > /a|x|/a|y` the source stores
the value `x|y` (it rejoins all fields, including the key field, and removes
every occurrence of the key text `/a|`), while the value described by the
spec — the fields after the key joined with a bar, trimmed, with the key
stripped from the front only — is `x|/a|y`. -/
theorem build_line_spec_mismatch :
    (Analyzer.build_line (chars "t > /a|x|/a|y")).2 = chars "x|y" ∧
    specLineValue (chars "t > /a|x|/a|y") = chars "x|/a|y" ∧
    (Analyzer.build_line (chars "t > /a|x|/a|y")).2 ≠
      specLineValue (chars "t > /a|x|/a|y") := by decide

/-- Claim C6 (amended): for every non-empty input line the parser stores as
key the first bar-field of the substring after the last `>`, trimmed, with a
trailing bar appended, and stores as value that whole substring trimmed with
every occurrence of the key text removed (anywhere, not only at the front):
rejoining all bar-fields with `|` reproduces the record body verbatim. -/
theorem build_line_characterization (line : List Char) (h : line ≠ []) :
    Analyzer.build_line line =
      (pyStrip ((pySplit '|' ((pySplit '>' line).getLastD [])).headD []) ++ ['|'],
        removeAll
          (pyStrip ((pySplit '|' ((pySplit '>' line).getLastD [])).headD []) ++ ['|'])
          (pyStrip ((pySplit '>' line).getLastD []))) := by
  unfold Analyzer.build_line
  show (pyStrip ((pySplit '|' ((pySplit '>' line).getLastD [])).headD []) ++ ['|'],
      removeAll
        (pyStrip ((pySplit '|' ((pySplit '>' line).getLastD [])).headD []) ++ ['|'])
        (pyStrip (pyJoin '|' (pySplit '|' ((pySplit '>' line).getLastD []))))) = _
  rw [pyJoin_pySplit]

theorem build_line_characterization_witness :
    Analyzer.build_line (chars "a|1\n") =
      (pyStrip ((pySplit '|' ((pySplit '>' (chars "a|1\n")).getLastD [])).headD []) ++ ['|'],
        removeAll
          (pyStrip ((pySplit '|' ((pySplit '>' (chars "a|1\n")).getLastD [])).headD []) ++ ['|'])
          (pyStrip ((pySplit '>' (chars "a|1\n")).getLastD []))) :=
  build_line_characterization (chars "a|1\n") (by decide)

/-- Claim C7 (counterexample): the line `path|17\n` has no `>` separator, yet
the parser does not omit it: the resulting mapping contains the entry
`path| -> 17` and is not empty, so the mapping does not cover only the
well-formed lines. -/
theorem no_separator_line_kept :
    ('>' ∉ chars "path|17\n") ∧
    Analyzer.build_map [chars "path|17\n"] = [(chars "path|", chars "17")] ∧
    Analyzer.build_map [chars "path|17\n"] ≠ [] := by decide

/-- Claim C7 (amended): the parser has no malformed-line handling at all: a
line with no `>` separator is parsed like any other line, with the entire
line serving as the record body, and its key is present in the resulting
mapping; no strict mode or line-number reporting exists in the source. -/
theorem no_separator_line_parsed (line : List Char) (hgt : '>' ∉ line) :
    (Analyzer.build_line line).1 = pyStrip ((pySplit '|' line).headD []) ++ ['|'] ∧
    ∀ ls : List (List Char), line ∈ ls →
      (lookupKey (Analyzer.build_line line).1 (Analyzer.build_map ls)).isSome = true := by
  constructor
  · unfold Analyzer.build_line
    rw [pySplit_of_not_mem hgt]
    rfl
  · intro ls hls
    exact build_map_key_present hls

theorem no_separator_line_parsed_witness :
    (Analyzer.build_line (chars "q|5\n")).1 = pyStrip ((pySplit '|' (chars "q|5\n")).headD []) ++ ['|'] ∧
    ∀ ls : List (List Char), chars "q|5\n" ∈ ls →
      (lookupKey (Analyzer.build_line (chars "q|5\n")).1 (Analyzer.build_map ls)).isSome = true :=
  no_separator_line_parsed (chars "q|5\n") (by decide)

/-- Claim C8 (counterexample): a file consisting of one blank line does not
produce an empty mapping: the blank line inserts the entry with key `|` and
empty value. -/
theorem blank_line_not_skipped :
    Analyzer.build_map [chars "\n"] = [(chars "|", [])] ∧
    Analyzer.build_map [chars "\n"] ≠ [] := by decide

/-- Claim C8 (amended): blank lines are not skipped: every whitespace-only
line contributes the entry with key `|` and empty value to the mapping (all
blank lines collapse onto this single entry, and no path-derived entry ever
originates from a blank line). -/
theorem blank_line_entry (line : List Char) (h : ∀ ch ∈ line, isSpace ch = true) :
    Analyzer.build_line line = (['|'], []) ∧
    Analyzer.build_map [line] = [(['|'], [])] := by
  have hgt : '>' ∉ line := fun hm => absurd (h '>' hm) (by decide)
  have hbar : '|' ∉ line := fun hm => absurd (h '|' hm) (by decide)
  have h1 : Analyzer.build_line line = (['|'], []) := by
    unfold Analyzer.build_line
    rw [pySplit_of_not_mem hgt]
    show (pyStrip ((pySplit '|' line).headD []) ++ ['|'],
        removeAll (pyStrip ((pySplit '|' line).headD []) ++ ['|'])
          (pyStrip (pyJoin '|' (pySplit '|' line)))) = (['|'], [])
    rw [pyJoin_pySplit, pySplit_of_not_mem hbar]
    show (pyStrip line ++ ['|'], removeAll (pyStrip line ++ ['|']) (pyStrip line)) = (['|'], [])
    rw [pyStrip_all_space h]
    rfl
  refine ⟨h1, ?_⟩
  show dictInsert (Analyzer.build_line line).1 (Analyzer.build_line line).2 [] = [(['|'], [])]
  rw [h1]
  rfl

theorem blank_line_entry_witness :
    Analyzer.build_line (chars " \t\n") = (['|'], []) ∧
    Analyzer.build_map [chars " \t\n"] = [(['|'], [])] :=
  blank_line_entry (chars " \t\n") (by decide)

/-- Claim C9: when either provided map file path has no file present, the
constructor takes the missing-file error path — it exits the process with
code 2 (the source's realization of the `NotFound` error) and builds no
mapping. -/
theorem init_missing_file (fs : List Char → Option (List (List Char)))
    (p other : List Char) (h : fs p = none) :
    Analyzer.init fs p other = .exited 2 ∧ Analyzer.init fs other p = .exited 2 := by
  constructor
  · unfold Analyzer.init
    rw [h]
  · unfold Analyzer.init
    cases hfo : fs other <;> rw [h]

theorem init_missing_file_witness :
    Analyzer.init (fun _ => none) (chars "original.map") (chars "current.map") = .exited 2 ∧
    Analyzer.init (fun _ => none) (chars "current.map") (chars "original.map") = .exited 2 :=
  init_missing_file (fun _ => none) (chars "original.map") (chars "current.map") rfl

/-- Claim C1 (code bug): with `original = {"k|": "1"}` and
`current = {"k|": "2"}` both enumerations of the symmetric-difference set are
possible iteration orders, and the two yield different results — the single
record for the key carries only one of the two values, chosen by iteration
order, instead of a Changed record carrying both values. -/
theorem compare_changed_key_order_dependent :
    Analyzer.validOrder [(chars "k|", chars "1")] [(chars "k|", chars "2")]
      [(chars "k|", chars "1"), (chars "k|", chars "2")] ∧
    Analyzer.validOrder [(chars "k|", chars "1")] [(chars "k|", chars "2")]
      [(chars "k|", chars "2"), (chars "k|", chars "1")] ∧
    Analyzer.compare [(chars "k|", chars "1")] [(chars "k|", chars "2")] [] [] false
      [(chars "k|", chars "1"), (chars "k|", chars "2")] = [(chars "k|", chars "1")] ∧
    Analyzer.compare [(chars "k|", chars "1")] [(chars "k|", chars "2")] [] [] false
      [(chars "k|", chars "2"), (chars "k|", chars "1")] = [(chars "k|", chars "2")] ∧
    Analyzer.compare [(chars "k|", chars "1")] [(chars "k|", chars "2")] [] [] false
      [(chars "k|", chars "1"), (chars "k|", chars "2")] ≠
    Analyzer.compare [(chars "k|", chars "1")] [(chars "k|", chars "2")] [] [] false
      [(chars "k|", chars "2"), (chars "k|", chars "1")] := by decide

/-- Claim C2: a key present in exactly one of the two maps is recorded with
that map's value, in every possible iteration order of the symmetric
difference — its single known value is never discarded by `compare`. -/
theorem compare_single_map_key_preserved
    (o c L : SysMap) (k v f1 f2 : List Char) (b : Bool)
    (ho : keysNodup o) (hc : keysNodup c) (hL : Analyzer.validOrder o c L)
    (h : (lookupKey k o = none ∧ lookupKey k c = some v) ∨
      (lookupKey k o = some v ∧ lookupKey k c = none)) :
    lookupKey k (Analyzer.compare o c f1 f2 b L) = some v := by
  rw [Analyzer.compare_lookup]
  exact compare_only_in_one_lookup ho hc hL h

theorem compare_single_map_key_preserved_witness :
    lookupKey (chars "n|")
      (Analyzer.compare [] [(chars "n|", chars "9")] [] [] false
        [(chars "n|", chars "9")]) = some (chars "9") :=
  compare_single_map_key_preserved [] [(chars "n|", chars "9")]
    [(chars "n|", chars "9")] (chars "n|") (chars "9") [] [] false
    (by decide) (by decide) (by decide) (Or.inl ⟨by decide, by decide⟩)

/-- Claim C3 (code bug): `compare` is not deterministic for a fixed pair of
mappings: with `original = {"a|": "x"}` and `current = {"a|": "y"}` two
iteration orders of the same symmetric-difference set produce different
output sets of records. -/
theorem compare_not_deterministic :
    Analyzer.validOrder [(chars "a|", chars "x")] [(chars "a|", chars "y")]
      [(chars "a|", chars "x"), (chars "a|", chars "y")] ∧
    Analyzer.validOrder [(chars "a|", chars "x")] [(chars "a|", chars "y")]
      [(chars "a|", chars "y"), (chars "a|", chars "x")] ∧
    Analyzer.compare [(chars "a|", chars "x")] [(chars "a|", chars "y")] [] [] false
      [(chars "a|", chars "x"), (chars "a|", chars "y")] ≠
    Analyzer.compare [(chars "a|", chars "x")] [(chars "a|", chars "y")] [] [] false
      [(chars "a|", chars "y"), (chars "a|", chars "x")] := by decide

/-- Claim C4: a key present in both maps with equal values never appears in
the result of `compare`, in any iteration order; in particular
`compare(M, M)` is empty for every mapping `M`. -/
theorem compare_equal_values_never_appear :
    (∀ (o c L : SysMap) (k v f1 f2 : List Char) (b : Bool),
        keysNodup o → keysNodup c → Analyzer.validOrder o c L →
        lookupKey k o = some v → lookupKey k c = some v →
        lookupKey k (Analyzer.compare o c f1 f2 b L) = none) ∧
    (∀ (M L : SysMap) (f1 f2 : List Char) (b : Bool),
        Analyzer.validOrder M M L → Analyzer.compare M M f1 f2 b L = []) := by
  constructor
  · intro o c L k v f1 f2 b ho hc hL hko hkc
    rw [Analyzer.compare_lookup, lookupKey_eq_none_iff]
    intro w hw
    rcases inSymDiff_iff.1 ((Analyzer.validOrder_mem hL _).1 hw) with ⟨h1, h2⟩ | ⟨h1, h2⟩
    · have hv := lookupKey_of_mem_nodup ho h1
      rw [hko] at hv
      exact h2 (mem_of_lookupKey_some ((Option.some_injective _ hv) ▸ hkc))
    · have hv := lookupKey_of_mem_nodup hc h2
      rw [hkc] at hv
      exact h1 (mem_of_lookupKey_some ((Option.some_injective _ hv) ▸ hko))
  · intro M L f1 f2 b hL
    cases L with
    | nil => rfl
    | cons p L =>
      exfalso
      have hs := hL.2.1 p (List.mem_cons_self _ _)
      unfold Analyzer.inSymDiff at hs
      simp at hs

theorem compare_equal_values_never_appear_witness :
    lookupKey (chars "a|")
      (Analyzer.compare [(chars "a|", chars "1")] [(chars "a|", chars "1")]
        [] [] false []) = none ∧
    Analyzer.compare [(chars "a|", chars "1")] [(chars "a|", chars "1")]
      [] [] false [] = [] :=
  ⟨compare_equal_values_never_appear.1 [(chars "a|", chars "1")]
      [(chars "a|", chars "1")] [] (chars "a|") (chars "1") [] [] false
      (by decide) (by decide) (by decide) (by decide) (by decide),
    compare_equal_values_never_appear.2 [(chars "a|", chars "1")] [] [] [] false
      (by decide)⟩

/-- Claim C5 (counterexample): the swap clause fails on the code: with
`A = {"k|": "1"}` and `B = {"k|": "2"}` the two directions may iterate the
(identical) symmetric-difference set in the same order, and then
`compare(A, B)` and `compare(B, A)` record the same single value for the
changed key — nothing swaps, because a record carries only one value. -/
theorem compare_direction_swap_refuted :
    ¬ changedValuesSwap [(chars "k|", chars "1")] [(chars "k|", chars "2")] := by
  intro h
  exact h [(chars "k|", chars "1"), (chars "k|", chars "2")]
    [(chars "k|", chars "1"), (chars "k|", chars "2")]
    (by decide) (by decide) (chars "k|") (chars "1") (chars "2")
    (by decide) (by decide) (by decide) rfl

/-- Claim C5 (amended): `compare(A, B)` and `compare(B, A)` contain the same
set of keys, and a key present in exactly one map keeps that map's value in
both directions; but a changed key's values do not swap: any enumeration
valid for one direction is valid for the other, and under the same
enumeration the two directions produce the identical result, since the body
of `compare` does not depend on which map is which. -/
theorem compare_direction_properties
    (A B L1 L2 : SysMap) (f1 f2 f3 f4 : List Char) (b1 b2 : Bool)
    (hA : keysNodup A) (hB : keysNodup B)
    (hL1 : Analyzer.validOrder A B L1) (hL2 : Analyzer.validOrder B A L2) :
    (∀ k, (lookupKey k (Analyzer.compare A B f1 f2 b1 L1)).isSome =
      (lookupKey k (Analyzer.compare B A f3 f4 b2 L2)).isSome) ∧
    (∀ k v, ((lookupKey k A = none ∧ lookupKey k B = some v) ∨
        (lookupKey k A = some v ∧ lookupKey k B = none)) →
      lookupKey k (Analyzer.compare A B f1 f2 b1 L1) = some v ∧
      lookupKey k (Analyzer.compare B A f3 f4 b2 L2) = some v) ∧
    (Analyzer.validOrder B A L1 ∧
      Analyzer.compare A B f1 f2 b1 L1 = Analyzer.compare B A f3 f4 b2 L1) := by
  refine ⟨?_, ?_, Analyzer.validOrder_symm hL1, rfl⟩
  · intro k
    rw [Analyzer.compare_lookup, Analyzer.compare_lookup, Bool.eq_iff_iff,
      lookupKey_isSome_iff, lookupKey_isSome_iff]
    constructor
    · rintro ⟨w, hw⟩
      refine ⟨w, ?_⟩
      rw [Analyzer.validOrder_mem hL2, ← inSymDiff_comm]
      exact (Analyzer.validOrder_mem hL1 _).1 hw
    · rintro ⟨w, hw⟩
      refine ⟨w, ?_⟩
      rw [Analyzer.validOrder_mem hL1, inSymDiff_comm]
      exact (Analyzer.validOrder_mem hL2 _).1 hw
  · intro k v h
    rw [Analyzer.compare_lookup, Analyzer.compare_lookup]
    refine ⟨compare_only_in_one_lookup hA hB hL1 h, ?_⟩
    refine compare_only_in_one_lookup hB hA hL2 ?_
    rcases h with ⟨h1, h2⟩ | ⟨h1, h2⟩
    · exact Or.inr ⟨h2, h1⟩
    · exact Or.inl ⟨h2, h1⟩

theorem compare_direction_properties_witness :
    lookupKey (chars "a|")
      (Analyzer.compare [(chars "a|", chars "1")] [] [] [] false
        [(chars "a|", chars "1")]) = some (chars "1") ∧
    lookupKey (chars "a|")
      (Analyzer.compare [] [(chars "a|", chars "1")] [] [] false
        [(chars "a|", chars "1")]) = some (chars "1") :=
  (compare_direction_properties [(chars "a|", chars "1")] []
      [(chars "a|", chars "1")] [(chars "a|", chars "1")] [] [] [] [] false false
      (by decide) (by decide) (by decide) (by decide)).2.1
    (chars "a|") (chars "1") (Or.inr ⟨by decide, by decide⟩)

/-- Claim C10: the result of `compare` does not depend on its
`original_map_file`, `current_map_file` and `print_to_console` parameters:
for the same constructed maps and the same iteration order, any two choices
of these arguments give the same result, because the body reads only the
maps built at construction time (and, in the source, none of the three
parameters at all). -/
theorem compare_ignores_arguments
    (o c L : SysMap) (f1 f2 f1' f2' : List Char) (b b' : Bool)
    (hL : Analyzer.validOrder o c L) :
    Analyzer.compare o c f1 f2 b L = Analyzer.compare o c f1' f2' b' L := rfl

theorem compare_ignores_arguments_witness :
    Analyzer.compare [] [(chars "z|", chars "5")] (chars "old.map")
      (chars "new.map") true [(chars "z|", chars "5")] =
    Analyzer.compare [] [(chars "z|", chars "5")] (chars "other.map")
      (chars "another.map") false [(chars "z|", chars "5")] :=
  compare_ignores_arguments [] [(chars "z|", chars "5")] [(chars "z|", chars "5")]
    (chars "old.map") (chars "new.map") (chars "other.map") (chars "another.map")
    true false (by decide)
